import Mathlib

/-!
# Commit classification and metrics engine: a shallow embedding

This file embeds the commit-analysis core of the repository
(`src/frontend/src/components/AnalysisResults.tsx`) in Lean 4 and proves
properties of it.  JavaScript strings are modelled as Lean `String`
(character lists), JavaScript numbers as exact integers `Int` (the only
fractional values ever computed are the change ratios, whose threshold
comparisons are encoded exactly by cross-multiplication), and possibly-absent
fields (`undefined`) as `Option`.
-/

namespace CodeAnalyzer

/-- JavaScript `\w` character class: `[A-Za-z0-9_]`. -/
def isWordChar (c : Char) : Bool :=
  ('a' ≤ c && c ≤ 'z') || ('A' ≤ c && c ≤ 'Z') || ('0' ≤ c && c ≤ '9') || c = '_'

/-- JavaScript `\s` character class restricted to ASCII whitespace. -/
def isSpaceChar (c : Char) : Bool :=
  c = ' ' || c = '\t' || c = '\n' || c = '\r' || c = '\x0b' || c = '\x0c'

/-- ASCII model of JavaScript `toLowerCase` applied to one character. -/
def jsToLower (c : Char) : Char :=
  if 'A' ≤ c && c ≤ 'Z' then Char.ofNat (c.toNat + 32) else c

/-- `message.toLowerCase().replace(/[^\w\s]/g, ' ')`: lowercase the string,
then replace every character that is neither a word character nor whitespace
by a space. -/
def normalizeMsg (s : List Char) : List Char :=
  (s.map jsToLower).map fun c => if isWordChar c || isSpaceChar c then c else ' '

/-- `str.split(/\s+/)` in JavaScript: split on maximal whitespace runs.  A
leading (resp. trailing) whitespace run contributes a leading (resp.
trailing) empty field, and the empty string splits to `[""]`. -/
def splitWsGo : List Char → List Char → Bool → List (List Char)
  | [], acc, _ => [acc.reverse]
  | c :: cs, acc, prevSpace =>
    if isSpaceChar c then
      if prevSpace then splitWsGo cs acc true
      else acc.reverse :: splitWsGo cs [] true
    else splitWsGo cs (c :: acc) false

/-- JavaScript `split(/\s+/)`. -/
def splitWs (s : List Char) : List (List Char) :=
  splitWsGo s [] false

/-- JavaScript `hay.includes(needle)`: contiguous-substring test. -/
def includesSub : List Char → List Char → Bool
  | [], needle => needle.isEmpty
  | c :: t, needle => needle.isPrefixOf (c :: t) || includesSub t needle

/-- One pattern of the matcher: a literal phrase or a (pre-compiled) regular
expression, the latter embedded as its matching function on the normalized
message. -/
inductive Pat where
  | lit (s : String)
  | re (test : List Char → Bool)

/-- Does the list start with a colon? -/
def headIsColon : List Char → Bool
  | c :: _ => c = ':'
  | [] => false

/-- `\w*\):` — word characters up to a closing parenthesis, then `:`.  Used as
the tail of the scope group of the conventional-commit regexes (the regex
backtracks deterministically here, since a word character is never a closing
parenthesis). -/
def parenColonTail : List Char → Bool
  | [] => false
  | c :: rest => (c = ')' && headIsColon rest) || (isWordChar c && parenColonTail rest)

/-- `\w+\):` — at least one word character, then `):`. -/
def wplusParenColon : List Char → Bool
  | [] => false
  | c :: rest => isWordChar c && parenColonTail rest

/-- `(\(\w+\))?:` — either a colon at once, or a scope group `(word)` followed
by a colon. -/
def afterFeatFix : List Char → Bool
  | [] => false
  | c :: rest => c = ':' || (c = '(' && wplusParenColon rest)

/-- `\s*\(\w+\):` — optional whitespace, then a scope group, then a colon. -/
def spacesGroupColon : List Char → Bool
  | [] => false
  | c :: rest =>
    if isSpaceChar c then spacesGroupColon rest
    else c = '(' && wplusParenColon rest

/-- `(\s*\(\w+\))?:` — either a colon at once, or optional whitespace, a scope
group and a colon. -/
def groupOrColonD (l : List Char) : Bool :=
  headIsColon l || spacesGroupColon l

/-- `s?(\s*\(\w+\))?:` — tail of the `/docs?(\s*\(\w+\))?:/i` regex after the
literal `doc` (try consuming an `s`, or not). -/
def afterDoc : List Char → Bool
  | [] => false
  | c :: rest => (c = 's' && groupOrColonD rest) || groupOrColonD (c :: rest)

/-- `ng(\s*\(\w+\))?:` — the rest of the `ing` alternative of the test regex
after its leading `i`. -/
def afterIng : List Char → Bool
  | a :: b :: r => a = 'n' && b = 'g' && groupOrColonD r
  | _ => false

/-- `(s|ing)?(\s*\(\w+\))?:` — tail of the `/test(s|ing)?(\s*\(\w+\))?:/i`
regex after the literal `test`. -/
def afterTest : List Char → Bool
  | [] => false
  | c :: rest =>
    (c = 's' && groupOrColonD rest) || (c = 'i' && afterIng rest) ||
      groupOrColonD (c :: rest)

/-- Unanchored scan: does `pre` followed by a tail accepted by `after` occur at
some position of the input? -/
def scanRe (pre : List Char) (after : List Char → Bool) : List Char → Bool
  | [] => pre.isEmpty && after []
  | c :: t =>
    (pre.isPrefixOf (c :: t) && after ((c :: t).drop pre.length)) || scanRe pre after t

/-- `/merge (branch|pull request|pr|changes?)/i` on the (lowercase) normalized
message: equivalent to containing one of four literal substrings, since
`changes` contains `change`. -/
def reMergeRx (msg : List Char) : Bool :=
  includesSub msg "merge branch".data || includesSub msg "merge pull request".data ||
    includesSub msg "merge pr".data || includesSub msg "merge change".data

/-- `/revert/i` on the normalized message. -/
def reRevert (msg : List Char) : Bool :=
  includesSub msg "revert".data

/-- `/feat(\(\w+\))?:/i` on the normalized message. -/
def reFeat (msg : List Char) : Bool :=
  scanRe "feat".data afterFeatFix msg

/-- `/fix(\(\w+\))?:/i` on the normalized message. -/
def reFix (msg : List Char) : Bool :=
  scanRe "fix".data afterFeatFix msg

/-- `/docs?(\s*\(\w+\))?:/i` on the normalized message. -/
def reDocs (msg : List Char) : Bool :=
  scanRe "doc".data afterDoc msg

/-- `/test(s|ing)?(\s*\(\w+\))?:/i` on the normalized message. -/
def reTest (msg : List Char) : Bool :=
  scanRe "test".data afterTest msg

/-- The fuzzy pattern matcher `hasPattern(message, patterns)`: normalize the
message (lowercase, punctuation to spaces), split into words; a literal
pattern matches when each of its words bidirectionally substring-matches some
message word; a regular expression is tested against the normalized message;
the pattern list is an OR. -/
def hasPattern (message : String) (patterns : List Pat) : Bool :=
  let msg := normalizeMsg message.data
  let words := splitWs msg
  patterns.any fun p =>
    match p with
    | .re t => t msg
    | .lit s =>
      let patternWords := splitWs (s.data.map jsToLower)
      patternWords.all fun pw => words.any fun w => includesSub w pw || includesSub pw w

/-- The Integration (rule 1) pattern list of `determineSSMCategory`. -/
def integrationPatterns : List Pat :=
  [.re reMergeRx, .lit "pull request", .lit "merge", .lit "integrate", .lit "squash",
    .lit "rebase", .lit "merge branch", .lit "merge pull"]

/-- The Rollback (rule 2) pattern list. -/
def rollbackPatterns : List Pat :=
  [.re reRevert, .lit "rollback", .lit "undo", .lit "back out", .lit "revert changes",
    .lit "roll back"]

/-- The Architectural (rule 3) pattern list. -/
def architecturalPatterns : List Pat :=
  [.lit "architectur", .lit "refactor architect", .lit "refactor structure",
    .lit "refactor design", .lit "major refactor", .lit "restructure", .lit "redesign",
    .lit "system design", .lit "architecture change"]

/-- The literal vocabulary of the Feature rule (rule 4), without its regex. -/
def featureVocabPatterns : List Pat :=
  [.lit "add feature", .lit "new feature", .lit "implement", .lit "feature implementation",
    .lit "add new", .lit "introduce", .lit "create new"]

/-- The Feature (rule 4) pattern list: the `feat(scope)?:` regex plus vocabulary. -/
def featurePatterns : List Pat :=
  .re reFeat :: featureVocabPatterns

/-- The Bug Fix (rule 5) pattern list. -/
def bugFixPatterns : List Pat :=
  [.re reFix, .lit "bugfix", .lit "bug fix", .lit "fix bug", .lit "fix issue",
    .lit "fix error", .lit "resolve issue", .lit "bug report", .lit "error fix",
    .lit "crash fix", .lit "bugs fixed"]

/-- The Documentation (rule 6) pattern list. -/
def documentationPatterns : List Pat :=
  [.re reDocs, .lit "documentation", .lit "update docs", .lit "improve docs",
    .lit "add docs", .lit "readme", .lit "changelog", .lit "license", .lit "doc update",
    .lit "update readme"]

/-- The Test (rule 7) pattern list. -/
def testPatterns : List Pat :=
  [.re reTest, .lit "add test", .lit "update test", .lit "fix test", .lit "test coverage",
    .lit "unit test", .lit "integration test", .lit "testing", .lit "add test case"]

/-- The Configuration (rule 8) pattern list. -/
def configurationPatterns : List Pat :=
  [.lit "config", .lit "configuration", .lit "update config", .lit "change setting",
    .lit "env", .lit "environment", .lit "package.json", .lit "webpack", .lit "babel",
    .lit "tsconfig", .lit "eslint", .lit "prettier", .lit "setup",
    .lit "configuration change"]

/-- The Refactoring (rule 9) vocabulary list. -/
def refactoringPatterns : List Pat :=
  [.lit "refactor", .lit "clean up", .lit "cleanup", .lit "code quality",
    .lit "improve code", .lit "code cleanup", .lit "optimize", .lit "simplify",
    .lit "restructure code"]

/-- The Maintenance (rule 10) pattern list. -/
def maintenancePatterns : List Pat :=
  [.lit "chore", .lit "maintenance", .lit "update dependency", .lit "bump version",
    .lit "dependency update", .lit "version bump", .lit "update deps",
    .lit "package update", .lit "update packages"]

/-- JavaScript `o || d` for a possibly-absent number: `undefined` and `0` are
falsy, any other integer is truthy. -/
def jsOrNum (o : Option Int) (d : Int) : Int :=
  match o with
  | none => d
  | some n => if n = 0 then d else n

/-- JavaScript `o || d` for a possibly-absent string: `undefined` and the empty
string are falsy. -/
def jsOrStr (o : Option String) (d : String) : String :=
  match o with
  | none => d
  | some s => if s = "" then d else s

/-- The duck-typed argument of `determineSSMCategory`: all four fields are
optional (`message?`, `linesAdded?`, `linesRemoved?`, `filesChanged?`). -/
structure SSMInput where
  message : Option String
  linesAdded : Option Int
  linesRemoved : Option Int
  filesChanged : Option Int

/-- The ratio test of the Refactoring rule: with
`changeRatio = (linesAdded || 0) > 0 ? (linesRemoved || 0) / (linesAdded || 1) : 0`,
the source condition `changeRatio > 0.7 && changeRatio < 1.3` is encoded by
exact cross-multiplication (the ratio is `0` when `linesAdded || 0 ≤ 0`, which
never lies in the open interval). -/
def refactorRatioHit (linesAdded linesRemoved : Option Int) : Bool :=
  if jsOrNum linesAdded 0 > 0 then
    decide (7 * jsOrNum linesAdded 1 < 10 * jsOrNum linesRemoved 0) &&
      decide (10 * jsOrNum linesRemoved 0 < 13 * jsOrNum linesAdded 1)
  else false

/-- `determineSSMCategory`: the ordered eleven-way rule cascade over the
commit message and change sizes; first matching rule wins, ending in the
size-based fallback. -/
def determineSSMCategory (commit : SSMInput) : String :=
  let message := jsOrStr commit.message ""
  let totalChanges := jsOrNum commit.linesAdded 0 + jsOrNum commit.linesRemoved 0
  if hasPattern message integrationPatterns then "Integration"
  else if hasPattern message rollbackPatterns then "Rollback"
  else if hasPattern message architecturalPatterns then "Architectural"
  else if hasPattern message featurePatterns then "Feature"
  else if hasPattern message bugFixPatterns then "Bug Fix"
  else if hasPattern message documentationPatterns then "Documentation"
  else if hasPattern message testPatterns then "Test"
  else if hasPattern message configurationPatterns then "Configuration"
  else if refactorRatioHit commit.linesAdded commit.linesRemoved ||
      hasPattern message refactoringPatterns then "Refactoring"
  else if hasPattern message maintenancePatterns then "Maintenance"
  else if totalChanges > 100 then "Architectural"
  else if totalChanges > 20 then "Trivial"
  else "Trivial"

/-- `getCommitType(message)`: first-match case-insensitive substring
classification into the seven commit types. -/
def getCommitType (message : String) : String :=
  let ml := message.data.map jsToLower
  if includesSub ml "fix".data || includesSub ml "bug".data then "Bug Fix"
  else if includesSub ml "feat".data || includesSub ml "add".data then "Feature"
  else if includesSub ml "refactor".data then "Refactor"
  else if includesSub ml "doc".data then "Documentation"
  else if includesSub ml "test".data then "Test"
  else if includesSub ml "chore".data then "Chore"
  else "Other"

/-- `getComplexityLevel(totalChanges)`: strict `<` thresholds 10, 50, 200. -/
def getComplexityLevel (totalChanges : Int) : String :=
  if totalChanges < 10 then "Simple"
  else if totalChanges < 50 then "Moderate"
  else if totalChanges < 200 then "Complex"
  else "Very Complex"

/-- `getQualityAssessment(added, removed, filesChanged)`; the source test
`changeRatio > 3` on `changeRatio = added > 0 ? removed / added : 0` is
encoded exactly as `removed > 3 * added` under the `added > 0` guard. -/
def getQualityAssessment (added removed filesChanged : Int) : String :=
  let ratioGt3 : Bool := if added > 0 then decide (removed > 3 * added) else false
  if filesChanged = 0 then "N/A"
  else if filesChanged > 10 then "Needs Review"
  else if ratioGt3 then "Questionable"
  else "Good"

/-- `getRiskLevel(totalChanges, filesChanged)`: strict `>` thresholds. -/
def getRiskLevel (totalChanges filesChanged : Int) : String :=
  if filesChanged = 0 then "None"
  else if totalChanges > 100 || filesChanged > 5 then "High"
  else if totalChanges > 50 || filesChanged > 2 then "Medium"
  else "Low"

/-- A changed file of a commit (the CommitFile interface). -/
structure CommitFile where
  filename : String
  status : String
  additions : Int
  deletions : Int
  changes : Int

/-- A fetched commit record (the Commit interface). -/
structure Commit where
  sha : String
  date : String
  author_name : String
  author_email : String
  committer_name : String
  committer_email : String
  author_login : String
  committer_login : String
  message : String
  additions : Int
  deletions : Int
  changes : Int
  files : List CommitFile
  branches : List String

/-- One entry of the category map built by categorizeCommits: a category name,
its commit count and the set of commit types seen in it (insertion order). -/
structure CatEntry where
  category : String
  count : Nat
  types : List String

/-- Add a commit type to the JavaScript Set of types (insertion order,
no duplicates). -/
def addType (types : List String) (t : String) : List String :=
  if types.contains t then types else types ++ [t]

/-- One iteration of the forEach loop of categorizeCommits over the Map,
modelled as an insertion-ordered association list. -/
def insertCommitCat (acc : List CatEntry) (cat ty : String) : List CatEntry :=
  match acc with
  | [] => [⟨cat, 1, [ty]⟩]
  | e :: rest =>
    if e.category = cat then ⟨e.category, e.count + 1, addType e.types ty⟩ :: rest
    else e :: insertCommitCat rest cat ty

/-- The SSMInput that categorizeCommits builds for one commit; the file count
is the length of the files list (the source guards with ?. and defaults to 0,
which for a present list is its length). -/
def ssmInputOfCommit (c : Commit) : SSMInput :=
  ⟨some c.message, some c.additions, some c.deletions, some (c.files.length : Int)⟩

/-- The forEach body of categorizeCommits. -/
def categorizeStep (acc : List CatEntry) (commit : Commit) : List CatEntry :=
  insertCommitCat acc (determineSSMCategory (ssmInputOfCommit commit))
    (getCommitType commit.message)

/-- categorizeCommits: group the commits by SSM category, collecting count and
the sorted distinct commit types per group, then sort the groups by count
descending (stable, as the JavaScript sort). -/
def categorizeCommits (commits : List Commit) : List CatEntry :=
  let categories := commits.foldl categorizeStep []
  (categories.map fun e =>
      (⟨e.category, e.count, e.types.mergeSort fun a b => a ≤ b⟩ : CatEntry)).mergeSort
    fun a b => b.count ≤ a.count

/-- The per-commit-type counting of the By Commit Type panel: a Map from
commit type to count, filled by a forEach over the commits with
set(type, (get(type) || 0) + 1), modelled as an insertion-ordered
association list. -/
def typeCounts (commits : List Commit) : List (String × Nat) :=
  commits.foldl (fun acc c => bumpCount acc (getCommitType c.message)) []
where
  bumpCount : List (String × Nat) → String → List (String × Nat)
    | [], k => [(k, 1)]
    | (k', n) :: rest, k =>
      if k' = k then (k', n + 1) :: rest else (k', n) :: bumpCount rest k

/-- The sortedTypes array of the same panel: the entries of the typeCounts
Map, sorted by count descending (stable, as the JavaScript sort). -/
def sortedTypes (commits : List Commit) : List (String × Nat) :=
  (typeCounts commits).mergeSort fun a b => b.2 ≤ a.2

/-- The latest_commit record of the RepoInsights interface (numeric fields and
files are optional). -/
structure LatestCommit where
  sha : String
  message : String
  branch : String
  date : String
  author_name : String
  author_login : Option String
  additions : Option Int
  deletions : Option Int
  changes : Option Int
  files : Option (List CommitFile)

/-- The record built by getCommitData.  The date field (a locale-formatted
date string produced by the UI helper formatDate) is presentation only and is
not modelled. -/
structure CommitData where
  message : String
  author : String
  branch : String
  hash : String
  linesAdded : Int
  linesRemoved : Int
  filesChanged : Int
  impactLevel : String
  ssmCategory : String

/-- getCommitData: defaults when no latest commit is present, otherwise the
display record of the latest commit.  The raw latest_commit record itself is
passed to determineSSMCategory; it has no linesAdded, linesRemoved or
filesChanged properties, so inside the classifier those fields read as
undefined. -/
def getCommitData (latest : Option LatestCommit) : CommitData :=
  match latest with
  | none =>
    { message := "No recent commits found", author := "N/A", branch := "N/A", hash := ""
      linesAdded := 0, linesRemoved := 0, filesChanged := 0
      impactLevel := "Medium", ssmCategory := "None" }
  | some commit =>
    { message := jsOrStr (some commit.message) "No commit message"
      author := jsOrStr commit.author_login (jsOrStr (some commit.author_name) "Unknown")
      branch := jsOrStr (some commit.branch) "main"
      hash := if commit.sha = "" then "" else ⟨commit.sha.data.take 7⟩
      linesAdded := jsOrNum commit.additions 0
      linesRemoved := jsOrNum commit.deletions 0
      filesChanged := jsOrNum (commit.files.map fun fs => (fs.length : Int)) 0
      impactLevel := "Medium"
      ssmCategory := determineSSMCategory ⟨some commit.message, none, none, none⟩ }

/-- Does the message match none of the ten vocabulary rule pattern lists of
the SSM cascade? -/
def matchesNoVocab (msg : String) : Bool :=
  !hasPattern msg integrationPatterns && !hasPattern msg rollbackPatterns &&
    !hasPattern msg architecturalPatterns && !hasPattern msg featurePatterns &&
    !hasPattern msg bugFixPatterns && !hasPattern msg documentationPatterns &&
    !hasPattern msg testPatterns && !hasPattern msg configurationPatterns &&
    !hasPattern msg refactoringPatterns && !hasPattern msg maintenancePatterns

/-! ## Basic lemmas -/

theorem includesSub_nil (l : List Char) : includesSub l [] = true := by
  cases l <;> simp [includesSub, List.isPrefixOf]

theorem jsOrStr_some_empty (s : String) : jsOrStr (some s) "" = s := by
  by_cases h : s = "" <;> simp [jsOrStr, h]

theorem jsOrNum_some_zero (n : Int) : jsOrNum (some n) 0 = n := by
  by_cases h : n = 0 <;> simp [jsOrNum, h]

/-! ## The conventional-commit regexes need a colon, which normalization
erases -/

theorem headIsColon_colon {l : List Char} (h : headIsColon l = true) :
    ':' ∈ l := by
  cases l with
  | nil => simp [headIsColon] at h
  | cons c rest =>
    simp only [headIsColon, decide_eq_true_eq] at h
    simp [h]

theorem parenColonTail_colon {l : List Char} (h : parenColonTail l = true) :
    ':' ∈ l := by
  induction l with
  | nil => simp [parenColonTail] at h
  | cons c rest ih =>
    simp only [parenColonTail, Bool.or_eq_true, Bool.and_eq_true] at h
    rcases h with ⟨_, h⟩ | ⟨_, h⟩
    · exact List.mem_cons_of_mem _ (headIsColon_colon h)
    · exact List.mem_cons_of_mem _ (ih h)

theorem wplusParenColon_colon {l : List Char} (h : wplusParenColon l = true) :
    ':' ∈ l := by
  cases l with
  | nil => simp [wplusParenColon] at h
  | cons c rest =>
    simp only [wplusParenColon, Bool.and_eq_true] at h
    exact List.mem_cons_of_mem _ (parenColonTail_colon h.2)

theorem afterFeatFix_colon {l : List Char} (h : afterFeatFix l = true) :
    ':' ∈ l := by
  cases l with
  | nil => simp [afterFeatFix] at h
  | cons c rest =>
    simp only [afterFeatFix, Bool.or_eq_true, Bool.and_eq_true,
      decide_eq_true_eq] at h
    rcases h with h | ⟨_, h⟩
    · simp [h]
    · exact List.mem_cons_of_mem _ (wplusParenColon_colon h)

theorem spacesGroupColon_colon {l : List Char} (h : spacesGroupColon l = true) :
    ':' ∈ l := by
  induction l with
  | nil => simp [spacesGroupColon] at h
  | cons c rest ih =>
    unfold spacesGroupColon at h
    split at h
    · exact List.mem_cons_of_mem _ (ih h)
    · rw [Bool.and_eq_true] at h
      exact List.mem_cons_of_mem _ (wplusParenColon_colon h.2)

theorem groupOrColonD_colon {l : List Char} (h : groupOrColonD l = true) :
    ':' ∈ l := by
  unfold groupOrColonD at h
  rw [Bool.or_eq_true] at h
  rcases h with h | h
  · exact headIsColon_colon h
  · exact spacesGroupColon_colon h

theorem afterDoc_colon {l : List Char} (h : afterDoc l = true) : ':' ∈ l := by
  cases l with
  | nil => simp [afterDoc] at h
  | cons c rest =>
    simp only [afterDoc, Bool.or_eq_true, Bool.and_eq_true] at h
    rcases h with ⟨_, h⟩ | h
    · exact List.mem_cons_of_mem _ (groupOrColonD_colon h)
    · exact groupOrColonD_colon h

theorem afterIng_colon {l : List Char} (h : afterIng l = true) : ':' ∈ l := by
  match l, h with
  | a :: b :: r, h =>
    have hg : groupOrColonD r = true := by
      simp only [afterIng, Bool.and_eq_true] at h
      tauto
    exact List.mem_cons_of_mem _ (List.mem_cons_of_mem _ (groupOrColonD_colon hg))
  | [], h => simp [afterIng] at h
  | [a], h => simp [afterIng] at h

theorem afterTest_colon {l : List Char} (h : afterTest l = true) : ':' ∈ l := by
  cases l with
  | nil => simp [afterTest] at h
  | cons c rest =>
    simp only [afterTest, Bool.or_eq_true, Bool.and_eq_true] at h
    rcases h with (⟨_, h⟩ | ⟨_, h⟩) | h
    · exact List.mem_cons_of_mem _ (groupOrColonD_colon h)
    · exact List.mem_cons_of_mem _ (afterIng_colon h)
    · exact groupOrColonD_colon h

theorem scanRe_colon {pre : List Char} {after : List Char → Bool}
    (hafter : ∀ l, after l = true → ':' ∈ l) :
    ∀ {l : List Char}, scanRe pre after l = true → ':' ∈ l := by
  intro l
  induction l with
  | nil =>
    intro h
    unfold scanRe at h
    rw [Bool.and_eq_true] at h
    exact hafter [] h.2
  | cons c t ih =>
    intro h
    unfold scanRe at h
    rw [Bool.or_eq_true] at h
    rcases h with h | h
    · rw [Bool.and_eq_true] at h
      exact List.mem_of_mem_drop (hafter _ h.2)
    · exact List.mem_cons_of_mem _ (ih h)

theorem normalizeMsg_no_colon (l : List Char) : ':' ∉ normalizeMsg l := by
  intro hmem
  unfold normalizeMsg at hmem
  rw [List.mem_map] at hmem
  obtain ⟨d, _, hd⟩ := hmem
  by_cases hcond : (isWordChar d || isSpaceChar d) = true
  · rw [if_pos hcond] at hd
    subst hd
    simp [isWordChar, isSpaceChar] at hcond
  · rw [if_neg hcond] at hd
    exact absurd hd (by decide)

theorem reFeat_norm (l : List Char) : reFeat (normalizeMsg l) = false := by
  cases h : reFeat (normalizeMsg l)
  · rfl
  · exact absurd (scanRe_colon (fun _ => afterFeatFix_colon) h)
      (normalizeMsg_no_colon l)

/-- The Feature rule matches exactly when its literal vocabulary matches: its
conventional-commit regex is tested against the normalized message, in which
the required colon has been replaced by a space. -/
theorem hasPattern_feature_eq_vocab (m : String) :
    hasPattern m featurePatterns = hasPattern m featureVocabPatterns := by
  simp only [hasPattern, featurePatterns, List.any_cons]
  rw [reFeat_norm]
  simp

/-! ## Messages without word characters normalize to whitespace, whose split
contains the empty word, which fuzzily matches every literal pattern -/

theorem normalizeMsg_all_space {l : List Char}
    (h : ∀ c ∈ l, isWordChar c = false) :
    ∀ d ∈ normalizeMsg l, isSpaceChar d = true := by
  intro d hd
  unfold normalizeMsg at hd
  rw [List.map_map, List.mem_map] at hd
  obtain ⟨c, hc, hd⟩ := hd
  have hw : isWordChar c = false := h c hc
  have hlow : jsToLower c = c := by
    unfold jsToLower
    rw [if_neg]
    intro hup
    rw [show isWordChar c =
        (('a' ≤ c && c ≤ 'z') || ('A' ≤ c && c ≤ 'Z') || ('0' ≤ c && c ≤ '9') ||
          c = '_') from rfl, hup] at hw
    simp at hw
  rw [Function.comp_apply, hlow] at hd
  by_cases hcond : (isWordChar c || isSpaceChar c) = true
  · rw [if_pos hcond] at hd
    rw [hw] at hcond
    simp only [Bool.false_or] at hcond
    rw [← hd]
    exact hcond
  · rw [if_neg hcond] at hd
    rw [← hd]
    decide

theorem nil_mem_splitWs_of_all_space {l : List Char}
    (h : ∀ c ∈ l, isSpaceChar c = true) : [] ∈ splitWs l := by
  cases l with
  | nil => simp [splitWs, splitWsGo]
  | cons c cs =>
    have hc : isSpaceChar c = true := h c (by simp)
    simp [splitWs, splitWsGo, hc]

theorem hasPattern_of_empty_word {message : String} {pats : List Pat}
    {s : String} (hmem : Pat.lit s ∈ pats)
    (hw : [] ∈ splitWs (normalizeMsg message.data)) :
    hasPattern message pats = true := by
  unfold hasPattern
  simp only [List.any_eq_true]
  refine ⟨Pat.lit s, hmem, ?_⟩
  simp only [List.all_eq_true]
  intro pw _
  simp only [List.any_eq_true]
  exact ⟨[], hw, by simp [includesSub_nil]⟩

/-! ## The refactor-ratio heuristic, characterized exactly -/

theorem jsOrNum_some_one_pos {n : Int} (h : 0 < n) : jsOrNum (some n) 1 = n := by
  have hn : n ≠ 0 := by omega
  simp [jsOrNum, hn]

theorem refactorRatioHit_some_iff (la lr : Int) :
    refactorRatioHit (some la) (some lr) = true ↔
      0 < la ∧ 7 * la < 10 * lr ∧ 10 * lr < 13 * la := by
  unfold refactorRatioHit
  simp only [jsOrNum_some_zero]
  by_cases h : (0 : Int) < la
  · rw [if_pos (by omega), jsOrNum_some_one_pos h]
    simp [h]
  · rw [if_neg (by omega)]
    constructor
    · intro hc
      exact absurd hc (by simp)
    · intro hc
      exact absurd hc.1 h

/-! ## Aggregation counting lemmas -/

theorem insertCommitCat_counts_sum (acc : List CatEntry) (cat ty : String) :
    ((insertCommitCat acc cat ty).map CatEntry.count).sum
      = (acc.map CatEntry.count).sum + 1 := by
  induction acc with
  | nil => simp [insertCommitCat]
  | cons e rest ih =>
    unfold insertCommitCat
    by_cases h : e.category = cat
    · simp [h]
      omega
    · simp [h, ih]
      omega

theorem foldl_categorizeStep_counts (commits : List Commit) (acc : List CatEntry) :
    ((commits.foldl categorizeStep acc).map CatEntry.count).sum
      = (acc.map CatEntry.count).sum + commits.length := by
  induction commits generalizing acc with
  | nil => simp
  | cons c cs ih =>
    simp only [List.foldl_cons, List.length_cons]
    rw [ih, categorizeStep, insertCommitCat_counts_sum]
    omega

theorem bumpCount_counts_sum (acc : List (String × Nat)) (k : String) :
    ((typeCounts.bumpCount acc k).map Prod.snd).sum
      = (acc.map Prod.snd).sum + 1 := by
  induction acc with
  | nil => simp [typeCounts.bumpCount]
  | cons p rest ih =>
    obtain ⟨k', n⟩ := p
    unfold typeCounts.bumpCount
    by_cases h : k' = k
    · simp [h]
      omega
    · simp [h, ih]
      omega

theorem foldl_bumpCount_counts (commits : List Commit)
    (acc : List (String × Nat)) :
    ((commits.foldl
        (fun acc c => typeCounts.bumpCount acc (getCommitType c.message))
        acc).map Prod.snd).sum
      = (acc.map Prod.snd).sum + commits.length := by
  induction commits generalizing acc with
  | nil => simp
  | cons c cs ih =>
    simp only [List.foldl_cons, List.length_cons]
    rw [ih, bumpCount_counts_sum]
    omega

/-! ## Claim theorems -/

/-- C1, as stated, is false at its own scenario: for the commit with message
"fix(api): handle null token", additions 12, deletions 3 and 2 files, the
complexity of the 15 changed lines is not Simple (10 ≤ 15 < 50 falls in the
Moderate bucket). -/
theorem fixApi_scenario_as_stated_fails :
    ¬(getCommitType "fix(api): handle null token" = "Bug Fix" ∧
      determineSSMCategory
          ⟨some "fix(api): handle null token", some 12, some 3, some 2⟩ = "Bug Fix" ∧
      getComplexityLevel (12 + 3) = "Simple" ∧
      getRiskLevel (12 + 3) 2 = "Low" ∧
      getQualityAssessment 12 3 2 = "Good") := by
  decide

/-- C1 (amended): for the commit with message "fix(api): handle null token",
additions 12, deletions 3 and 2 files, the classifiers and scorers return
commitType = Bug Fix, ssmCategory = Bug Fix, complexity = Moderate (for the
15 changed lines), risk = Low and quality = Good. -/
theorem fixApi_scenario :
    getCommitType "fix(api): handle null token" = "Bug Fix" ∧
      determineSSMCategory
          ⟨some "fix(api): handle null token", some 12, some 3, some 2⟩ = "Bug Fix" ∧
      getComplexityLevel (12 + 3) = "Moderate" ∧
      getRiskLevel (12 + 3) 2 = "Low" ∧
      getQualityAssessment 12 3 2 = "Good" := by
  decide

/-- C5: the scorer thresholds are strict: exactly 10 changed lines is
Moderate, exactly 50 is Complex, exactly 200 is Very Complex, and exactly 100
changed lines over exactly 5 files is risk Medium, not High. -/
theorem strict_threshold_boundaries :
    getComplexityLevel 10 = "Moderate" ∧ getComplexityLevel 50 = "Complex" ∧
      getComplexityLevel 200 = "Very Complex" ∧ getRiskLevel 100 5 = "Medium" := by
  decide

/-- C7: the commit with message "Merge pull request #42", additions 0,
deletions 0 and 0 files is classified Integration, with risk None and
quality N/A. -/
theorem merge_pr_scenario :
    determineSSMCategory
        ⟨some "Merge pull request #42", some 0, some 0, some 0⟩ = "Integration" ∧
      getRiskLevel 0 0 = "None" ∧ getQualityAssessment 0 0 0 = "N/A" := by
  decide

/-- C3: a commit whose message matches both the Integration vocabulary
(rule 1) and the Bug Fix vocabulary (rule 5) is classified Integration: the
cascade evaluates rules in order and the first match wins. -/
theorem integration_beats_bugfix (msg : String) (la lr fc : Option Int)
    (h1 : hasPattern msg integrationPatterns = true)
    (_h2 : hasPattern msg bugFixPatterns = true) :
    determineSSMCategory ⟨some msg, la, lr, fc⟩ = "Integration" := by
  simp [determineSSMCategory, jsOrStr_some_empty, h1]

/-- Witness for C3: the message "fix merge conflict" matches both
vocabularies and is classified Integration. -/
theorem integration_beats_bugfix_witness :
    determineSSMCategory
        ⟨some "fix merge conflict", some 5, some 2, some 1⟩ = "Integration" :=
  integration_beats_bugfix "fix merge conflict" (some 5) (some 2) (some 1)
    (by decide) (by decide)

/-- C9: a commit whose message contains no word character (empty,
whitespace-only or punctuation-only) is always classified Integration: after
normalization the word list contains the empty string, which fuzzily matches
every literal pattern, so the first rule wins. -/
theorem no_word_chars_integration (msg : String) (la lr fc : Option Int)
    (h : ∀ c ∈ msg.data, isWordChar c = false) :
    determineSSMCategory ⟨some msg, la, lr, fc⟩ = "Integration" := by
  have hw : [] ∈ splitWs (normalizeMsg msg.data) :=
    nil_mem_splitWs_of_all_space (normalizeMsg_all_space h)
  have hp : hasPattern msg integrationPatterns = true :=
    hasPattern_of_empty_word (s := "pull request")
      (by simp [integrationPatterns]) hw
  simp [determineSSMCategory, jsOrStr_some_empty, hp]

/-- Witness for C9: a punctuation-and-whitespace message is classified
Integration regardless of its change sizes. -/
theorem no_word_chars_integration_witness :
    determineSSMCategory ⟨some "!!! ???", some 5, some 5, some 1⟩ = "Integration" :=
  no_word_chars_integration "!!! ???" (some 5) (some 5) (some 1) (by decide)

/-- C6: the per-category counts of categorizeCommits sum to the number of
commits, and so do the per-commit-type counts of the sortedTypes grouping:
every commit lands in exactly one group of each taxonomy. -/
theorem category_counts_partition (commits : List Commit) :
    ((categorizeCommits commits).map CatEntry.count).sum = commits.length ∧
      ((sortedTypes commits).map Prod.snd).sum = commits.length := by
  constructor
  · simp only [categorizeCommits]
    rw [((List.mergeSort_perm _ _).map CatEntry.count).sum_eq, List.map_map]
    have hcomp : (CatEntry.count ∘ fun e : CatEntry =>
        (⟨e.category, e.count, e.types.mergeSort fun a b => a ≤ b⟩ : CatEntry))
          = CatEntry.count := rfl
    rw [hcomp, foldl_categorizeStep_counts]
    simp
  · simp only [sortedTypes]
    rw [((List.mergeSort_perm _ _).map Prod.snd).sum_eq]
    simp only [typeCounts]
    rw [foldl_bumpCount_counts]
    simp

/-- C8: the three scalar scorers are total: for every integer input, each
returns one of its defined bucket values (in particular, the removed/added
ratio test is guarded by added > 0 and contributes 0 otherwise). -/
theorem scorers_total (totalChanges filesChanged added removed : Int) :
    (getComplexityLevel totalChanges = "Simple" ∨
        getComplexityLevel totalChanges = "Moderate" ∨
        getComplexityLevel totalChanges = "Complex" ∨
        getComplexityLevel totalChanges = "Very Complex") ∧
      (getRiskLevel totalChanges filesChanged = "None" ∨
        getRiskLevel totalChanges filesChanged = "Low" ∨
        getRiskLevel totalChanges filesChanged = "Medium" ∨
        getRiskLevel totalChanges filesChanged = "High") ∧
      (getQualityAssessment added removed filesChanged = "N/A" ∨
        getQualityAssessment added removed filesChanged = "Good" ∨
        getQualityAssessment added removed filesChanged = "Questionable" ∨
        getQualityAssessment added removed filesChanged = "Needs Review") := by
  unfold getComplexityLevel getRiskLevel getQualityAssessment
  refine ⟨?_, ?_, ?_⟩ <;> (repeat' split) <;> simp <;> omega

/-- C4: with a message matching none of rules 1 to 8 and no refactoring
vocabulary, the Refactoring classification fires exactly when additions are
positive and the deletions/additions ratio lies strictly between 0.7 and 1.3,
encoded exactly as 7·additions < 10·deletions < 13·additions. -/
theorem refactor_ratio_iff (msg : String) (la lr : Int) (fc : Option Int)
    (h1 : hasPattern msg integrationPatterns = false)
    (h2 : hasPattern msg rollbackPatterns = false)
    (h3 : hasPattern msg architecturalPatterns = false)
    (h4 : hasPattern msg featurePatterns = false)
    (h5 : hasPattern msg bugFixPatterns = false)
    (h6 : hasPattern msg documentationPatterns = false)
    (h7 : hasPattern msg testPatterns = false)
    (h8 : hasPattern msg configurationPatterns = false)
    (h9 : hasPattern msg refactoringPatterns = false) :
    (determineSSMCategory ⟨some msg, some la, some lr, fc⟩ = "Refactoring") ↔
      (0 < la ∧ 7 * la < 10 * lr ∧ 10 * lr < 13 * la) := by
  rw [← refactorRatioHit_some_iff]
  simp only [determineSSMCategory, jsOrStr_some_empty, h1, h2, h3, h4, h5, h6,
    h7, h8, h9, Bool.or_false, Bool.false_eq_true, if_false]
  cases hr : refactorRatioHit (some la) (some lr)
  · simp only [Bool.false_eq_true, if_false]
    constructor
    · intro hEq
      exfalso
      repeat' split at hEq
      all_goals exact absurd hEq (by decide)
    · intro hc
      exact absurd hc (by simp)
  · simp

/-- Witness for C4: with a vocabulary-free message, 100 additions and 90
deletions (ratio 0.9) classify as Refactoring, while 100 additions and 40
deletions (ratio 0.4) do not. -/
theorem refactor_ratio_iff_witness :
    determineSSMCategory
        ⟨some "xyzzy plugh", some 100, some 90, some 3⟩ = "Refactoring" ∧
      determineSSMCategory
        ⟨some "xyzzy plugh", some 100, some 40, some 3⟩ ≠ "Refactoring" :=
  ⟨(refactor_ratio_iff "xyzzy plugh" 100 90 (some 3) (by decide) (by decide)
      (by decide) (by decide) (by decide) (by decide) (by decide) (by decide)
      (by decide)).mpr (by decide),
    fun h => absurd
      ((refactor_ratio_iff "xyzzy plugh" 100 40 (some 3) (by decide) (by decide)
        (by decide) (by decide) (by decide) (by decide) (by decide) (by decide)
        (by decide)).mp h) (by decide)⟩

/-- C2, as stated, is false: the message "feat: improve parser" begins with
the feat: prefix, matches none of rules 1 to 3, yet a commit with it and no
line changes is classified Trivial, not Feature — the feat: regex is tested
against the normalized message, whose colon has been replaced by a space. -/
theorem featPrefix_alone_not_feature :
    ("feat:").data.isPrefixOf "feat: improve parser".data = true ∧
      hasPattern "feat: improve parser" integrationPatterns = false ∧
      hasPattern "feat: improve parser" rollbackPatterns = false ∧
      hasPattern "feat: improve parser" architecturalPatterns = false ∧
      determineSSMCategory
          ⟨some "feat: improve parser", some 0, some 0, some 0⟩ = "Trivial" ∧
      determineSSMCategory
          ⟨some "feat: improve parser", some 0, some 0, some 0⟩ ≠ "Feature" := by
  decide

/-- C2 (amended): a commit whose message begins with the conventional-commit
feat: prefix and does not match rules 1 to 3 is classified Feature exactly
when the add/implement/introduce vocabulary of rule 4 matches; the feat:
prefix alone never triggers rule 4, because normalization strips the colon
the regex requires. -/
theorem featPrefix_feature_iff_vocab (msg : String) (la lr fc : Option Int)
    (_hpre : ("feat:").data.isPrefixOf msg.data = true)
    (h1 : hasPattern msg integrationPatterns = false)
    (h2 : hasPattern msg rollbackPatterns = false)
    (h3 : hasPattern msg architecturalPatterns = false) :
    (determineSSMCategory ⟨some msg, la, lr, fc⟩ = "Feature") ↔
      hasPattern msg featureVocabPatterns = true := by
  simp only [determineSSMCategory, jsOrStr_some_empty, h1, h2, h3,
    Bool.false_eq_true, if_false, hasPattern_feature_eq_vocab]
  cases hv : hasPattern msg featureVocabPatterns
  · simp only [Bool.false_eq_true, if_false]
    constructor
    · intro hEq
      exfalso
      repeat' split at hEq
      all_goals exact absurd hEq (by decide)
    · intro hc
      exact absurd hc (by simp)
  · simp

/-- Witness for C2 (amended): "feat: add new parser" carries the feat:
prefix, matches the rule-4 vocabulary, and is classified Feature. -/
theorem featPrefix_feature_iff_vocab_witness :
    determineSSMCategory
        ⟨some "feat: add new parser", some 0, some 0, some 0⟩ = "Feature" :=
  (featPrefix_feature_iff_vocab "feat: add new parser" (some 0) (some 0)
    (some 0) (by decide) (by decide) (by decide) (by decide)).mpr (by decide)

/-- C10: the latest-commit path hands the raw latest_commit record to
determineSSMCategory, whose linesAdded/linesRemoved/filesChanged fields are
absent there and default to 0 — so the displayed category equals the
classification of the same message with zero sizes, and a latest commit
matching no vocabulary rule is Trivial regardless of its actual size. -/
theorem latest_commit_ssm_zero_fields (lc : LatestCommit) :
    (getCommitData (some lc)).ssmCategory
        = determineSSMCategory ⟨some lc.message, some 0, some 0, some 0⟩ ∧
      (matchesNoVocab lc.message = true →
        (getCommitData (some lc)).ssmCategory = "Trivial") := by
  constructor
  · show determineSSMCategory ⟨some lc.message, none, none, none⟩ = _
    simp [determineSSMCategory, jsOrNum, refactorRatioHit]
  · intro h
    simp only [matchesNoVocab, Bool.and_eq_true, Bool.not_eq_true'] at h
    obtain ⟨⟨⟨⟨⟨⟨⟨⟨⟨h1, h2⟩, h3⟩, h4⟩, h5⟩, h6⟩, h7⟩, h8⟩, h9⟩, h10⟩ := h
    show determineSSMCategory ⟨some lc.message, none, none, none⟩ = _
    simp [determineSSMCategory, jsOrStr_some_empty, h1, h2, h3, h4, h5, h6, h7,
      h8, h9, h10, jsOrNum, refactorRatioHit]

/-- Witness for C10: a latest commit with 400 additions, 380 deletions, two
changed files and a vocabulary-free message is displayed as Trivial, although
with its real sizes the ratio heuristic would classify it Refactoring. -/
theorem latest_commit_ssm_zero_fields_witness :
    (getCommitData (some ⟨"0123456789abcdef", "xyzzy plugh", "main",
        "2024-05-01", "ana", none, some 400, some 380, some 780,
        some [⟨"a.ts", "modified", 200, 190, 390⟩,
          ⟨"b.ts", "modified", 200, 190, 390⟩]⟩)).ssmCategory = "Trivial" :=
  (latest_commit_ssm_zero_fields _).2 (by decide)

end CodeAnalyzer
